import Mathlib

/-!
Verification of the flake repository: a SonyFlake-style distributed id
allocator.  The definitions below are a shallow embedding of the Rust
sources.  The main implementation is src/sonyflake/src/lib.rs (structs
SonyFlake and InfallibleSonyFlake); src/src/lib.rs is an earlier draft of
the same design whose decompose function is also embedded here (as
decompose_draft) for comparison.

Machine integers are modelled as Nat and Int: Rust u16 values are Nat
values below 2 ^ 16, Rust i64 values are Int, and the one place where an
i64 is reinterpreted as u64 (the cast in to_id) takes the value modulo
2 ^ 64.  Clock reads are passed in as explicit arguments: each call to
next_id receives the value that current_elapsed_time (respectively
to_sonyflake_time of the wall clock) would have returned, so the state
transition logic is embedded exactly while real time stays external.
Sleeping (std::thread::sleep) has no effect on any state and is not
modelled.
-/

set_option maxRecDepth 4000
set_option linter.unusedVariables false

namespace Flake

/-- Bit length of the time field, constant BIT_LEN_TIME = 39 in both drafts. -/
def BIT_LEN_TIME : Nat := 39

/-- Bit length of the sequence field, constant BIT_LEN_SEQUENCE = 8. -/
def BIT_LEN_SEQUENCE : Nat := 8

/-- Bit length of the machine id field, 63 - BIT_LEN_TIME - BIT_LEN_SEQUENCE = 16. -/
def BIT_LEN_MACHINE_ID : Nat := 63 - BIT_LEN_TIME - BIT_LEN_SEQUENCE

/-- The overflow bound 1 << BIT_LEN_TIME of the check
`inner.elapsed_time >= 1 << BIT_LEN_TIME` (sonyflake lib.rs line 384),
as an Int because elapsed_time is an i64. -/
def TIME_LIMIT : Int := ((1 <<< BIT_LEN_TIME : Nat) : Int)

/-- Reinterpretation of an i64 value as u64, the `elapsed_time as u64` cast. -/
def i64_as_u64 (x : Int) : Nat := (x % ((2 : Int) ^ 64)).toNat

/-- to_id (sonyflake lib.rs lines 525-529):
`(elapsed_time as u64) << (BIT_LEN_SEQUENCE + BIT_LEN_MACHINE_ID)
  | (seq as u64) << BIT_LEN_MACHINE_ID | (machine_id as u64)`.
seq and machine_id are u16 values (Nat below 2 ^ 16), so their shifted
forms stay far below 2 ^ 64 and only the elapsed_time summand needs the
u64 wraparound. -/
def to_id (elapsed_time : Int) (seq machine_id : Nat) : Nat :=
  ((i64_as_u64 elapsed_time <<< (BIT_LEN_SEQUENCE + BIT_LEN_MACHINE_ID)) % 2 ^ 64)
    ||| (seq <<< BIT_LEN_MACHINE_ID) ||| machine_id

/-- IDParts (both drafts): the decomposed bit parts of an id. -/
structure IDParts where
  id : Nat
  msb : Nat
  time : Nat
  sequence : Nat
  machine_id : Nat
deriving DecidableEq, Repr

/-- decompose (sonyflake lib.rs lines 587-603):
mask_seq = ((1 << BIT_LEN_SEQUENCE) - 1) << BIT_LEN_MACHINE_ID,
mask_machine_id = (1 << BIT_LEN_MACHINE_ID) - 1,
msb = id >> 63, time = id >> (BIT_LEN_SEQUENCE + BIT_LEN_MACHINE_ID),
seq = (id & mask_seq) >> BIT_LEN_MACHINE_ID, machine_id = id & mask_machine_id. -/
def decompose (id : Nat) : IDParts :=
  let mask_seq := ((1 <<< BIT_LEN_SEQUENCE) - 1) <<< BIT_LEN_MACHINE_ID
  let mask_machine_id := (1 <<< BIT_LEN_MACHINE_ID) - 1
  let msb := id >>> 63
  let time := id >>> (BIT_LEN_SEQUENCE + BIT_LEN_MACHINE_ID)
  let seq := (id &&& mask_seq) >>> BIT_LEN_MACHINE_ID
  let machine_id := id &&& mask_machine_id
  ⟨id, msb, time, seq, machine_id⟩

/-- decompose of the draft src/src/lib.rs lines 453-470, with the Rust
operator precedence preserved: in `(1 << BIT_LEN_SEQUENCE - 1) as u64`
the subtraction binds before the shift, so first_part = 1 << 7; in
`id & mask_seq >> BIT_LEN_MACHINE_ID` the shift binds before the and;
and mask_machine_id = 1 << (BIT_LEN_MACHINE_ID - 1). -/
def decompose_draft (id : Nat) : IDParts :=
  let first_part := 1 <<< (BIT_LEN_SEQUENCE - 1)
  let mask_seq := first_part <<< BIT_LEN_MACHINE_ID
  let mask_machine_id := 1 <<< (BIT_LEN_MACHINE_ID - 1)
  let msb := id >>> 63
  let time := id >>> (BIT_LEN_SEQUENCE + BIT_LEN_MACHINE_ID)
  let seq := id &&& (mask_seq >>> BIT_LEN_MACHINE_ID)
  let machine_id := id &&& mask_machine_id
  ⟨id, msb, time, seq, machine_id⟩

/-- Inner (sonyflake lib.rs lines 519-523): the lock protected allocator
state, elapsed_time an i64 and sequence a u16. -/
structure Inner where
  elapsed_time : Int
  sequence : Nat
deriving DecidableEq, Repr

/-- Error (sonyflake lib.rs lines 181-197).  MachineIdFailed carries a
boxed opaque error in Rust, dropped here. -/
inductive Error where
  | StartTimeAheadOfCurrentTime (t : Int)
  | MachineIdFailed
  | InvalidMachineID (id : Nat)
  | TimeOverflow
  | NoPrivateIPv4Address
deriving DecidableEq, Repr

/-- The state update shared verbatim by SonyFlake::next_id (lines 371-382)
and InfallibleSonyFlake::next_id (lines 443-454): on `current` being the
value of current_elapsed_time(start_time),
if elapsed_time < current then elapsed_time = current, sequence = 0,
else sequence = (sequence + 1) & mask_sequence and, on wrap to 0,
elapsed_time += 1 (followed by a sleep, which changes no state). -/
def advance (current : Int) (inner : Inner) : Inner :=
  let mask_sequence := (1 <<< BIT_LEN_SEQUENCE) - 1
  if inner.elapsed_time < current then
    ⟨current, 0⟩
  else
    let seq := (inner.sequence + 1) &&& mask_sequence
    if seq = 0 then ⟨inner.elapsed_time + 1, seq⟩
    else ⟨inner.elapsed_time, seq⟩

/-- SonyFlake::next_id (sonyflake lib.rs lines 364-389), with the clock
read passed in as `current`.  The MutexGuard writes back the advanced
state even when the overflow error is returned, so the second component
is the post call state in both cases. -/
def sonyNextId (machine_id : Nat) (current : Int) (inner : Inner) :
    Except Error Nat × Inner :=
  let inner := advance current inner
  if TIME_LIMIT ≤ inner.elapsed_time then
    (Except.error Error.TimeOverflow, inner)
  else
    (Except.ok (to_id inner.elapsed_time inner.sequence machine_id), inner)

/-- The Inner built by SonyFlake::new and InfallibleSonyFlake::new
(lines 346, 355-358, 418, 427-430): sequence = 1 << (BIT_LEN_SEQUENCE - 1),
elapsed_time = 0. -/
def initialInner : Inner := ⟨0, 1 <<< (BIT_LEN_SEQUENCE - 1)⟩

/-- A run of successive SonyFlake::next_id calls against one shared state,
one call per entry of the list of clock readings.  The lock serialises
all calls from all handles into such a list. -/
def runSF (machine_id : Nat) : List Int → Inner → List (Except Error Nat) × Inner
  | [], inner => ([], inner)
  | c :: cs, inner =>
    let r := sonyNextId machine_id c inner
    let rest := runSF machine_id cs r.2
    (r.1 :: rest.1, rest.2)

/-- The successfully returned ids of a list of call results. -/
def oks (rs : List (Except Error Nat)) : List Nat :=
  rs.filterMap fun r => match r with
    | Except.ok v => some v
    | Except.error _ => none

/-- Whether a call result is a success. -/
def isOkE (r : Except Error Nat) : Bool :=
  match r with
  | Except.ok _ => true
  | Except.error _ => false

/-- Settings as consumed by get_and_check_machine_id: the optional custom
machine id provider (modelled by the result its machine_id method
produces, Except Unit Nat since the Rust error payload is opaque) and the
optional checker capability. -/
structure SettingsM where
  machine_id : Option (Except Unit Nat)
  check_machine_id : Option (Nat → Bool)

/-- Settings::get_and_check_machine_id (sonyflake lib.rs lines 274-300).
lower16 is the result of lower_16_bit_private_ip, an external collaborator
reading the host network configuration, passed in as a value. -/
def get_and_check_machine_id (st : SettingsM) (lower16 : Except Error Nat) :
    Except Error Nat :=
  match st.machine_id with
  | some r =>
    match r with
    | Except.ok machine_id =>
      match st.check_machine_id with
      | some checker =>
        if !(checker machine_id) then Except.error (Error.InvalidMachineID machine_id)
        else Except.ok machine_id
      | none => Except.ok machine_id
    | Except.error _ => Except.error Error.MachineIdFailed
  | none =>
    match lower16 with
    | Except.ok machine_id =>
      match st.check_machine_id with
      | some checker =>
        if !(checker machine_id) then Except.error (Error.InvalidMachineID machine_id)
        else Except.ok machine_id
      | none => Except.ok machine_id
    | Except.error e => Except.error e

/-- InfallibleSonyFlake (sonyflake lib.rs lines 406-410): the per handle
immutable machine_id and mutable start_time, plus the shared Inner. -/
structure InfFlake where
  start_time : Int
  machine_id : Nat
  inner : Inner
deriving DecidableEq, Repr

/-- InfallibleSonyFlake::next_id (sonyflake lib.rs lines 436-466).
nowCur is the to_sonyflake_time value of the clock read made by
current_elapsed_time, nowRebase the one made inside the overflow branch
(the branch reads Utc::now() again); the caller passes nowCur ≤ nowRebase
for a monotone clock.  In the overflow branch start_time is rebased to
nowRebase, elapsed_time and sequence are reset to 0 and
to_id(0, 0, machine_id) is returned; the call never fails. -/
def infNextId (nowCur nowRebase : Int) (f : InfFlake) : Nat × InfFlake :=
  let current := nowCur - f.start_time
  let inner := advance current f.inner
  if TIME_LIMIT ≤ inner.elapsed_time then
    (to_id 0 0 f.machine_id, ⟨nowRebase, f.machine_id, ⟨0, 0⟩⟩)
  else
    (to_id inner.elapsed_time inner.sequence f.machine_id, ⟨f.start_time, f.machine_id, inner⟩)

/-- One handle of an InfallibleSonyFlake: the fields stored inline in the
struct, as opposed to the Arc shared Inner. -/
structure Handle where
  start_time : Int
  machine_id : Nat
deriving DecidableEq, Repr

/-- The Clone impl for InfallibleSonyFlake (lines 469-478) copies
start_time and machine_id by value; the Arc field is cloned by reference,
so the clone shares the same Inner. -/
def cloneHandle (h : Handle) : Handle := ⟨h.start_time, h.machine_id⟩

/-- Two handles of one logical InfallibleSonyFlake allocator: each has its
own start_time and machine_id, and both reference the single lock
protected Inner. -/
structure World where
  h1 : Handle
  h2 : Handle
  inner : Inner
deriving DecidableEq, Repr

/-- InfallibleSonyFlake::next_id invoked on handle h1 of a two handle
world.  Identical to infNextId, with the shared Inner read and written in
place while only the h1 fields can change (the rebase writes
self.start_time, a per handle field). -/
def infNextIdFst (nowCur nowRebase : Int) (w : World) : Nat × World :=
  let current := nowCur - w.h1.start_time
  let inner := advance current w.inner
  if TIME_LIMIT ≤ inner.elapsed_time then
    (to_id 0 0 w.h1.machine_id, ⟨⟨nowRebase, w.h1.machine_id⟩, w.h2, ⟨0, 0⟩⟩)
  else
    (to_id inner.elapsed_time inner.sequence w.h1.machine_id, ⟨w.h1, w.h2, inner⟩)

/-- The allocator state invariant: elapsed_time, an i64 that only ever
moves up from 0, is nonnegative, and sequence, always masked to 8 bits,
is at most 255.  Established by construction and preserved by advance. -/
def WF (s : Inner) : Prop := 0 ≤ s.elapsed_time ∧ s.sequence ≤ 255

/-- Strict progress order on allocator states: the time slot grows, or
stays while the sequence grows. -/
def idLex (a b : Inner) : Prop :=
  a.elapsed_time < b.elapsed_time ∨
    (a.elapsed_time = b.elapsed_time ∧ a.sequence < b.sequence)

/-! ### Arithmetic facts about the codec -/

/-- Right shift distributes over bitwise and. -/
theorem shiftRight_and_distrib (x y k : Nat) :
    (x &&& y) >>> k = (x >>> k) &&& (y >>> k) := by
  apply Nat.eq_of_testBit_eq
  intro i
  simp [Nat.testBit_shiftRight, Nat.testBit_and]

/-- Bitwise or of a shifted value with a small value is addition. -/
theorem lor_eq_add_of_lt (a b k : Nat) (hb : b < 2 ^ k) :
    (a * 2 ^ k) ||| b = a * 2 ^ k + b := by
  rw [Nat.mul_comm a]
  exact (Nat.mul_add_lt_is_or hb a).symm

/-- For in range fields, to_id is plain positional arithmetic. -/
theorem to_id_eq (e : Int) (s n : Nat) (he0 : 0 ≤ e) (he : e < 2 ^ 39)
    (hs : s < 2 ^ 8) (hn : n < 2 ^ 16) :
    to_id e s n = e.toNat * 2 ^ 24 + s * 2 ^ 16 + n := by
  have h1 : i64_as_u64 e = e.toNat := by
    unfold i64_as_u64
    rw [Int.emod_eq_of_lt he0 (by omega)]
  have heN : e.toNat < 2 ^ 39 := by omega
  unfold to_id
  rw [h1]
  have h24 : BIT_LEN_SEQUENCE + BIT_LEN_MACHINE_ID = 24 := rfl
  have h16 : BIT_LEN_MACHINE_ID = 16 := rfl
  rw [h24, h16, Nat.shiftLeft_eq, Nat.shiftLeft_eq]
  rw [Nat.mod_eq_of_lt (by omega)]
  rw [lor_eq_add_of_lt (e.toNat) (s * 2 ^ 16) 24 (by omega)]
  have hsplit : e.toNat * 2 ^ 24 + s * 2 ^ 16 = (e.toNat * 2 ^ 8 + s) * 2 ^ 16 := by ring
  rw [hsplit, lor_eq_add_of_lt _ n 16 hn]

/-- decompose is plain positional extraction: the four mask and shift
expressions compute the quotient and remainder fields of the id. -/
theorem decompose_spec (id : Nat) :
    decompose id = ⟨id, id / 2 ^ 63, id / 2 ^ 24, id / 2 ^ 16 % 2 ^ 8, id % 2 ^ 16⟩ := by
  show IDParts.mk id (id >>> 63) (id >>> 24)
      ((id &&& (((1 <<< 8) - 1) <<< 16)) >>> 16) (id &&& ((1 <<< 16) - 1)) = _
  rw [IDParts.mk.injEq]
  refine ⟨rfl, ?_, ?_, ?_, ?_⟩
  · exact Nat.shiftRight_eq_div_pow id 63
  · exact Nat.shiftRight_eq_div_pow id 24
  · rw [shiftRight_and_distrib]
    have hmask : (((1 <<< 8) - 1) <<< 16) >>> 16 = 2 ^ 8 - 1 := by decide
    rw [hmask, Nat.and_pow_two_sub_one_eq_mod, Nat.shiftRight_eq_div_pow]
  · have hmask : ((1 : Nat) <<< 16) - 1 = 2 ^ 16 - 1 := by decide
    rw [hmask, Nat.and_pow_two_sub_one_eq_mod]

/-! ### Facts about the state transition -/

/-- TIME_LIMIT as a power of two. -/
theorem TIME_LIMIT_eq : TIME_LIMIT = ((2 ^ 39 : Nat) : Int) := by decide

/-- advance with its local lets flattened. -/
theorem advance_eq (c : Int) (s : Inner) :
    advance c s =
      if s.elapsed_time < c then ⟨c, 0⟩
      else if (s.sequence + 1) &&& 255 = 0 then ⟨s.elapsed_time + 1, (s.sequence + 1) &&& 255⟩
      else ⟨s.elapsed_time, (s.sequence + 1) &&& 255⟩ := rfl

/-- advance with the sequence mask written as a remainder. -/
theorem advance_eq_mod (c : Int) (s : Inner) :
    advance c s =
      if s.elapsed_time < c then ⟨c, 0⟩
      else if (s.sequence + 1) % 256 = 0 then ⟨s.elapsed_time + 1, (s.sequence + 1) % 256⟩
      else ⟨s.elapsed_time, (s.sequence + 1) % 256⟩ := by
  have h : (s.sequence + 1) &&& 255 = (s.sequence + 1) % 256 := by
    have h8 := Nat.and_pow_two_sub_one_eq_mod (s.sequence + 1) 8
    norm_num at h8
    exact h8
  rw [advance_eq, h]

/-- advance preserves the state invariant. -/
theorem advance_wf (c : Int) (s : Inner) (h : WF s) : WF (advance c s) := by
  obtain ⟨h1, h2⟩ := h
  unfold WF
  rw [advance_eq_mod]
  split
  · rename_i hlt
    refine ⟨?_, ?_⟩ <;> dsimp only <;> omega
  · split <;> (refine ⟨?_, ?_⟩ <;> dsimp only <;> omega)

/-- advance strictly advances the progress order. -/
theorem advance_lt (c : Int) (s : Inner) (h : WF s) : idLex s (advance c s) := by
  obtain ⟨h1, h2⟩ := h
  unfold idLex
  rw [advance_eq_mod]
  split
  · rename_i hlt
    left; dsimp only; omega
  · rename_i hge
    split
    · left; dsimp only; omega
    · rename_i hne
      right
      refine ⟨rfl, ?_⟩
      dsimp only
      omega

/-- advance never moves elapsed_time down. -/
theorem advance_elapsed_le (c : Int) (s : Inner) :
    s.elapsed_time ≤ (advance c s).elapsed_time := by
  rw [advance_eq_mod]
  split
  · rename_i hlt; dsimp only; omega
  · split <;> dsimp only <;> omega

/-- sonyNextId with its local let flattened. -/
theorem sonyNextId_eq (m : Nat) (c : Int) (s : Inner) :
    sonyNextId m c s =
      if TIME_LIMIT ≤ (advance c s).elapsed_time then
        (Except.error Error.TimeOverflow, advance c s)
      else
        (Except.ok (to_id (advance c s).elapsed_time (advance c s).sequence m),
          advance c s) := rfl

/-- The post call state of a fail fast call is the advanced state, whether
or not the call failed: the MutexGuard has already written it back. -/
theorem sonyNextId_snd (m : Nat) (c : Int) (s : Inner) :
    (sonyNextId m c s).2 = advance c s := by
  rw [sonyNextId_eq]
  split <;> rfl

/-- When the advanced slot is below the limit, the call returns the id
encoded from the advanced state. -/
theorem sonyNextId_fst_ok (m : Nat) (c : Int) (s : Inner)
    (h : (advance c s).elapsed_time < TIME_LIMIT) :
    (sonyNextId m c s).1 =
      Except.ok (to_id (advance c s).elapsed_time (advance c s).sequence m) := by
  rw [sonyNextId_eq, if_neg (not_le.mpr h)]

/-- When the advanced slot reaches the limit, the call fails. -/
theorem sonyNextId_fst_err (m : Nat) (c : Int) (s : Inner)
    (h : TIME_LIMIT ≤ (advance c s).elapsed_time) :
    (sonyNextId m c s).1 = Except.error Error.TimeOverflow := by
  rw [sonyNextId_eq, if_pos h]

/-- Once elapsed_time has reached the limit, every call fails and keeps
elapsed_time at or above the limit, whatever the clock does. -/
theorem overflow_persists (m : Nat) (c : Int) (s : Inner)
    (h : TIME_LIMIT ≤ s.elapsed_time) :
    (sonyNextId m c s).1 = Except.error Error.TimeOverflow ∧
      TIME_LIMIT ≤ (sonyNextId m c s).2.elapsed_time := by
  have hle : TIME_LIMIT ≤ (advance c s).elapsed_time := by
    rcases lt_or_le s.elapsed_time c with hc | hc
    · rw [advance_eq_mod, if_pos hc]
      simp only
      omega
    · exact le_trans h (advance_elapsed_le c s)
  exact ⟨sonyNextId_fst_err m c s hle, by rw [sonyNextId_snd]; exact hle⟩

/-- Progress in the state order gives strictly larger encoded ids, for in
range states. -/
theorem to_id_lt_to_id (m : Nat) (hm : m < 2 ^ 16) (a b : Inner)
    (ha : WF a) (hb : WF b)
    (haT : a.elapsed_time < TIME_LIMIT) (hbT : b.elapsed_time < TIME_LIMIT)
    (hlex : idLex a b) :
    to_id a.elapsed_time a.sequence m < to_id b.elapsed_time b.sequence m := by
  rw [TIME_LIMIT_eq] at haT hbT
  obtain ⟨ha0, ha255⟩ := ha
  obtain ⟨hb0, hb255⟩ := hb
  rw [to_id_eq a.elapsed_time a.sequence m ha0 (by omega) (by omega) hm]
  rw [to_id_eq b.elapsed_time b.sequence m hb0 (by omega) (by omega) hm]
  unfold idLex at hlex
  omega

/-- runSF unfolded one call. -/
theorem runSF_cons (m : Nat) (c : Int) (cs : List Int) (s : Inner) :
    runSF m (c :: cs) s =
      ((sonyNextId m c s).1 :: (runSF m cs (sonyNextId m c s).2).1,
        (runSF m cs (sonyNextId m c s).2).2) := rfl

/-- In an all successful run the encoded id of the starting state is a
strict lower bound of the returned ids, and the returned ids strictly
increase, whatever the clock readings are. -/
theorem runSF_chain (m : Nat) (hm : m < 2 ^ 16) (cs : List Int) :
    ∀ s : Inner, WF s → s.elapsed_time < TIME_LIMIT →
      (∀ r ∈ (runSF m cs s).1, isOkE r = true) →
      List.Chain' (· < ·)
        (to_id s.elapsed_time s.sequence m :: oks (runSF m cs s).1) := by
  induction cs with
  | nil =>
    intro s _ _ _
    simp [runSF, oks]
  | cons c cs ih =>
    intro s hWF hT hok
    have hok0 : isOkE (sonyNextId m c s).1 = true := by
      apply hok
      rw [runSF_cons]
      exact List.mem_cons_self _ _
    have hlt : (advance c s).elapsed_time < TIME_LIMIT := by
      by_contra hge
      rw [sonyNextId_fst_err m c s (not_lt.mp hge)] at hok0
      simp [isOkE] at hok0
    have hval := sonyNextId_fst_ok m c s hlt
    have hWF1 := advance_wf c s hWF
    have hrest : ∀ r ∈ (runSF m cs (sonyNextId m c s).2).1, isOkE r = true := by
      intro r hr
      apply hok
      rw [runSF_cons]
      exact List.mem_cons_of_mem _ hr
    have hchain := ih (sonyNextId m c s).2
      (by rw [sonyNextId_snd]; exact hWF1)
      (by rw [sonyNextId_snd]; exact hlt) hrest
    rw [runSF_cons]
    have hoks : oks ((sonyNextId m c s).1 :: (runSF m cs (sonyNextId m c s).2).1) =
        to_id (advance c s).elapsed_time (advance c s).sequence m ::
          oks (runSF m cs (sonyNextId m c s).2).1 := by
      rw [hval]
      simp [oks]
    simp only [hoks]
    rw [List.chain'_cons]
    constructor
    · exact to_id_lt_to_id m hm s (advance c s) hWF hWF1 hT hlt (advance_lt c s hWF)
    · rw [sonyNextId_snd m c s] at hchain ⊢
      exact hchain

/-- Every id returned by an all comers run encodes the machine id of the
allocator in its low 16 bits. -/
theorem runSF_machine (m : Nat) (hm : m < 2 ^ 16) (cs : List Int) :
    ∀ s : Inner, WF s →
      ∀ id ∈ oks (runSF m cs s).1, (decompose id).machine_id = m := by
  induction cs with
  | nil =>
    intro s _ id hid
    simp [runSF, oks] at hid
  | cons c cs ih =>
    intro s hWF id hid
    have hWF1 : WF (sonyNextId m c s).2 := by
      rw [sonyNextId_snd]; exact advance_wf c s hWF
    rw [runSF_cons] at hid
    rcases lt_or_le (advance c s).elapsed_time TIME_LIMIT with hlt | hge
    · rw [sonyNextId_fst_ok m c s hlt] at hid
      simp only [oks, List.filterMap_cons] at hid
      rcases List.mem_cons.mp hid with hhead | htail
      · subst hhead
        have h0 : 0 ≤ (advance c s).elapsed_time := (advance_wf c s hWF).1
        have h255 : (advance c s).sequence ≤ 255 := (advance_wf c s hWF).2
        rw [TIME_LIMIT_eq] at hlt
        rw [to_id_eq _ _ _ h0 (by omega) (by omega) hm, decompose_spec]
        dsimp only
        omega
      · exact ih (sonyNextId m c s).2 hWF1 id htail
    · rw [sonyNextId_fst_err m c s hge] at hid
      simp only [oks, List.filterMap_cons] at hid
      exact ih (sonyNextId m c s).2 hWF1 id hid

/-- infNextId with its local lets flattened. -/
theorem infNextId_eq (nowCur nowRebase : Int) (f : InfFlake) :
    infNextId nowCur nowRebase f =
      if TIME_LIMIT ≤ (advance (nowCur - f.start_time) f.inner).elapsed_time then
        (to_id 0 0 f.machine_id, ⟨nowRebase, f.machine_id, ⟨0, 0⟩⟩)
      else
        (to_id (advance (nowCur - f.start_time) f.inner).elapsed_time
          (advance (nowCur - f.start_time) f.inner).sequence f.machine_id,
          ⟨f.start_time, f.machine_id, advance (nowCur - f.start_time) f.inner⟩) := rfl

/-- infNextIdFst with its local lets flattened. -/
theorem infNextIdFst_eq (nowCur nowRebase : Int) (w : World) :
    infNextIdFst nowCur nowRebase w =
      if TIME_LIMIT ≤ (advance (nowCur - w.h1.start_time) w.inner).elapsed_time then
        (to_id 0 0 w.h1.machine_id, ⟨⟨nowRebase, w.h1.machine_id⟩, w.h2, ⟨0, 0⟩⟩)
      else
        (to_id (advance (nowCur - w.h1.start_time) w.inner).elapsed_time
          (advance (nowCur - w.h1.start_time) w.inner).sequence w.h1.machine_id,
          ⟨w.h1, w.h2, advance (nowCur - w.h1.start_time) w.inner⟩) := rfl

/-- The id encoded from the reset state is the bare machine id. -/
theorem to_id_zero (m : Nat) (hm : m < 2 ^ 16) : to_id 0 0 m = m := by
  simpa using to_id_eq 0 0 m (le_refl 0) (by norm_num) (by norm_num) hm

/-! ### The claims -/

/-- C1: For one fail fast allocator, assuming the clock readings (the
elapsed time units since the epoch handed to each call) never decrease
across calls, every sequence of successive successful next_id calls on
its handles yields a strictly increasing sequence of ids. -/
theorem c1_sonyflake_monotonic (m : Nat) (hm : m < 2 ^ 16) (cs : List Int)
    (hclock : List.Chain' (· ≤ ·) cs)
    (hok : ∀ r ∈ (runSF m cs initialInner).1, isOkE r = true) :
    List.Chain' (· < ·) (oks (runSF m cs initialInner).1) := by
  have h := runSF_chain m hm cs initialInner ⟨by decide, by decide⟩ (by decide) hok
  exact h.tail

/-- C1 witness: three successful calls at clock slots 0, 0, 1 from the
freshly built state return strictly increasing ids. -/
theorem c1_witness :
    (3 < 2 ^ 16) ∧ List.Chain' (· ≤ ·) [(0 : Int), 0, 1] ∧
    (∀ r ∈ (runSF 3 [0, 0, 1] initialInner).1, isOkE r = true) ∧
    List.Chain' (· < ·) (oks (runSF 3 [0, 0, 1] initialInner).1) :=
  ⟨by decide, by norm_num [List.chain'_cons], by decide,
    c1_sonyflake_monotonic 3 (by decide) [0, 0, 1] (by norm_num [List.chain'_cons])
      (by decide)⟩

/-- C2: for all time_unit < 2 ^ 39, sequence < 2 ^ 8, node_id < 2 ^ 16,
decomposing the encoded id returns msb = 0 and exactly the original
fields. -/
theorem c2_codec_round_trip (t s n : Nat)
    (ht : t < 2 ^ 39) (hs : s < 2 ^ 8) (hn : n < 2 ^ 16) :
    decompose (to_id (t : Int) s n) = ⟨to_id (t : Int) s n, 0, t, s, n⟩ := by
  have h0 : (0 : Int) ≤ (t : Int) := Int.natCast_nonneg t
  have hti : ((t : Int)) < 2 ^ 39 := by exact_mod_cast ht
  have hid : to_id (t : Int) s n = t * 2 ^ 24 + s * 2 ^ 16 + n := by
    simpa using to_id_eq (t : Int) s n h0 hti hs hn
  rw [decompose_spec, hid, IDParts.mk.injEq]
  refine ⟨rfl, by omega, by omega, by omega, by omega⟩

/-- C2 witness: the round trip at time_unit 5, sequence 7, node 9. -/
theorem c2_witness :
    decompose (to_id ((5 : Nat) : Int) 7 9) = ⟨to_id ((5 : Nat) : Int) 7 9, 0, 5, 7, 9⟩ :=
  c2_codec_round_trip 5 7 9 (by decide) (by decide) (by decide)

/-- C3 counterexample: with last_time_unit = 2 ^ 39 - 1 and the sequence
value 128 (the one the constructor leaves), the next call with the clock
slot at 0 succeeds with an id instead of returning the time limit error:
the claim fails for sequence values other than 255. -/
theorem c3_counterexample :
    (sonyNextId 1 0 ⟨TIME_LIMIT - 1, 128⟩).1 =
      Except.ok (to_id (TIME_LIMIT - 1) 129 1) := rfl

/-- C3 (amended): with last_time_unit = 2 ^ 39 - 1, sequence = 255 (so
that this call wraps the sequence and steps into slot 2 ^ 39) and the
current clock slot at or below last_time_unit, the call returns the
TimeOverflow error, and a second call after it, under any clock, returns
TimeOverflow again. -/
theorem c3_overflow_fail_fast (m : Nat) (c1 c2 : Int) (h1 : c1 ≤ TIME_LIMIT - 1) :
    (sonyNextId m c1 ⟨TIME_LIMIT - 1, 255⟩).1 = Except.error Error.TimeOverflow ∧
    (sonyNextId m c2 (sonyNextId m c1 ⟨TIME_LIMIT - 1, 255⟩).2).1 =
      Except.error Error.TimeOverflow := by
  have hadv : advance c1 ⟨TIME_LIMIT - 1, 255⟩ = ⟨TIME_LIMIT, 0⟩ := by
    rw [advance_eq_mod,
      if_neg (show ¬((⟨TIME_LIMIT - 1, 255⟩ : Inner).elapsed_time < c1) by dsimp only; omega)]
    dsimp only
    norm_num
  constructor
  · exact sonyNextId_fst_err m c1 _ (by rw [hadv])
  · have hsnd : (sonyNextId m c1 ⟨TIME_LIMIT - 1, 255⟩).2 = ⟨TIME_LIMIT, 0⟩ := by
      rw [sonyNextId_snd, hadv]
    rw [hsnd]
    exact (overflow_persists m c2 ⟨TIME_LIMIT, 0⟩ (le_refl _)).1

/-- C3 amended witness: the boundary state with sequence 255 at clock
slot 0 fails twice in a row. -/
theorem c3_witness :
    ((0 : Int) ≤ TIME_LIMIT - 1) ∧
    (sonyNextId 1 0 ⟨TIME_LIMIT - 1, 255⟩).1 = Except.error Error.TimeOverflow :=
  ⟨by decide, (c3_overflow_fail_fast 1 0 0 (by decide)).1⟩

/-- C4 counterexample: a call that returns the TimeOverflow error does
advance the state: from {2 ^ 39, 0} at clock slot 0 the call fails and
leaves {2 ^ 39, 1}, not the state it started from. -/
theorem c4_counterexample :
    (sonyNextId 1 0 ⟨TIME_LIMIT, 0⟩).1 = Except.error Error.TimeOverflow ∧
    (sonyNextId 1 0 ⟨TIME_LIMIT, 0⟩).2 ≠ ⟨TIME_LIMIT, 0⟩ :=
  ⟨rfl, by decide⟩

/-- C4 (amended): whenever a fail fast call returns TimeOverflow, the
post call state has last_time_unit at or above 2 ^ 39 (the failing call
may still advance the sequence, and on a wrap the slot), and from that
state every subsequent call, under any clock, returns TimeOverflow
again. -/
theorem c4_error_persists (m : Nat) (c c2 : Int) (s : Inner)
    (herr : (sonyNextId m c s).1 = Except.error Error.TimeOverflow) :
    TIME_LIMIT ≤ (sonyNextId m c s).2.elapsed_time ∧
    (sonyNextId m c2 (sonyNextId m c s).2).1 = Except.error Error.TimeOverflow := by
  have hge : TIME_LIMIT ≤ (advance c s).elapsed_time := by
    by_contra hlt
    rw [sonyNextId_fst_ok m c s (not_le.mp hlt)] at herr
    exact Except.noConfusion herr
  refine ⟨by rw [sonyNextId_snd]; exact hge, ?_⟩
  exact (overflow_persists m c2 (sonyNextId m c s).2
    (by rw [sonyNextId_snd]; exact hge)).1

/-- C4 amended witness: from the overflowed state the failure recurs. -/
theorem c4_witness :
    (sonyNextId 1 0 ⟨TIME_LIMIT, 0⟩).1 = Except.error Error.TimeOverflow ∧
    (sonyNextId 1 0 (sonyNextId 1 0 ⟨TIME_LIMIT, 0⟩).2).1 =
      Except.error Error.TimeOverflow :=
  ⟨rfl, (c4_error_persists 1 0 0 ⟨TIME_LIMIT, 0⟩ rfl).2⟩

/-- C5: for the self healing allocator, whenever the advanced slot would
reach 2 ^ 39, the call rebases start_time to the rebase clock reading,
resets the shared state to {0, 0} and returns the id encoded from the
zero slot, whose decomposed time and sequence are 0; an immediately
following call (clock not moved backwards and not 174 years ahead)
returns a strictly larger id.  The call never fails by type: infNextId
returns a plain id. -/
theorem c5_infallible_rebase (f : InfFlake) (now1 nowR now2 nowR2 : Int)
    (hm : f.machine_id < 2 ^ 16)
    (hover : TIME_LIMIT ≤ (advance (now1 - f.start_time) f.inner).elapsed_time)
    (hmono : nowR ≤ now2) (himm : now2 - nowR < TIME_LIMIT) :
    (infNextId now1 nowR f).2.inner = ⟨0, 0⟩ ∧
    (infNextId now1 nowR f).2.start_time = nowR ∧
    (decompose (infNextId now1 nowR f).1).time = 0 ∧
    (decompose (infNextId now1 nowR f).1).sequence = 0 ∧
    (infNextId now1 nowR f).1 < (infNextId now2 nowR2 (infNextId now1 nowR f).2).1 := by
  have h1 : infNextId now1 nowR f = (to_id 0 0 f.machine_id, ⟨nowR, f.machine_id, ⟨0, 0⟩⟩) := by
    rw [infNextId_eq, if_pos hover]
  rw [h1]
  dsimp only
  rw [to_id_zero f.machine_id hm]
  refine ⟨rfl, rfl, ?_, ?_, ?_⟩
  · rw [decompose_spec]; dsimp only; omega
  · rw [decompose_spec]; dsimp only; omega
  · rw [infNextId_eq]
    dsimp only
    rw [TIME_LIMIT_eq] at himm hover ⊢
    rcases lt_or_le (0 : Int) (now2 - nowR) with hpos | hnp
    · have hadv : advance (now2 - nowR) (⟨0, 0⟩ : Inner) = ⟨now2 - nowR, 0⟩ := by
        rw [advance_eq_mod, if_pos (by dsimp only; omega)]
      rw [hadv]
      rw [if_neg (by dsimp only; omega)]
      dsimp only
      rw [to_id_eq (now2 - nowR) 0 f.machine_id (by omega) (by omega) (by norm_num) hm]
      omega
    · have hz : now2 - nowR = 0 := by omega
      have hadv : advance (now2 - nowR) (⟨0, 0⟩ : Inner) = ⟨0, 1⟩ := by
        rw [advance_eq_mod, if_neg (by dsimp only; omega)]
        norm_num
      rw [hadv]
      rw [if_neg (by dsimp only; omega)]
      dsimp only
      rw [to_id_eq 0 1 f.machine_id (le_refl 0) (by norm_num) (by norm_num) hm]
      omega

/-- C5 witness: a state one step short of the limit with sequence 255
rebases at clock 5 and the following call at clock 6 returns a larger
id. -/
theorem c5_witness :
    ((1 : Nat) < 2 ^ 16) ∧
    TIME_LIMIT ≤ (advance ((0 : Int) - 0) (⟨TIME_LIMIT - 1, 255⟩ : Inner)).elapsed_time ∧
    (infNextId 0 5 ⟨0, 1, ⟨TIME_LIMIT - 1, 255⟩⟩).2.inner = ⟨0, 0⟩ ∧
    (infNextId 0 5 ⟨0, 1, ⟨TIME_LIMIT - 1, 255⟩⟩).1 <
      (infNextId 6 6 (infNextId 0 5 ⟨0, 1, ⟨TIME_LIMIT - 1, 255⟩⟩).2).1 := by
  have h := c5_infallible_rebase ⟨0, 1, ⟨TIME_LIMIT - 1, 255⟩⟩ 0 5 6 6
    (by decide) (by decide) (by decide) (by decide)
  exact ⟨by decide, by decide, h.1, h.2.2.2.2⟩

/-- C6: a supplied provider yielding node id n with a validator rejecting
n makes construction fail with InvalidMachineID n; with a validator
accepting n construction resolves n, and every id a fail fast run of the
resulting allocator returns decomposes to machine_id = n. -/
theorem c6_machine_id_checker (n : Nat) (hn : n < 2 ^ 16) (cb : Nat → Bool)
    (lower16 : Except Error Nat) (cs : List Int) :
    (cb n = false →
      get_and_check_machine_id ⟨some (Except.ok n), some cb⟩ lower16 =
        Except.error (Error.InvalidMachineID n)) ∧
    (cb n = true →
      get_and_check_machine_id ⟨some (Except.ok n), some cb⟩ lower16 = Except.ok n ∧
      ∀ id ∈ oks (runSF n cs initialInner).1, (decompose id).machine_id = n) := by
  constructor
  · intro hfalse
    simp [get_and_check_machine_id, hfalse]
  · intro htrue
    refine ⟨by simp [get_and_check_machine_id, htrue], ?_⟩
    exact runSF_machine n hn cs initialInner ⟨by decide, by decide⟩

/-- C6 witness: an odd only validator rejects node id 4 and accepts node
id 1, and the first two ids of a run then carry machine_id 1. -/
theorem c6_witness :
    ((4 : Nat) < 2 ^ 16) ∧ ((1 : Nat) < 2 ^ 16) ∧
    get_and_check_machine_id
      ⟨some (Except.ok 4), some fun k => decide (k % 2 = 1)⟩
      (Except.error Error.NoPrivateIPv4Address) =
        Except.error (Error.InvalidMachineID 4) ∧
    get_and_check_machine_id
      ⟨some (Except.ok 1), some fun k => decide (k % 2 = 1)⟩
      (Except.error Error.NoPrivateIPv4Address) = Except.ok 1 ∧
    (∀ id ∈ oks (runSF 1 [0, 0] initialInner).1, (decompose id).machine_id = 1) := by
  have h4 := (c6_machine_id_checker 4 (by decide) (fun k => decide (k % 2 = 1))
    (Except.error Error.NoPrivateIPv4Address) [0, 0]).1 (by decide)
  have h1 := (c6_machine_id_checker 1 (by decide) (fun k => decide (k % 2 = 1))
    (Except.error Error.NoPrivateIPv4Address) [0, 0]).2 (by decide)
  exact ⟨by decide, by decide, h4, h1.1, h1.2⟩

/-- C7 counterexample: construction leaves sequence = 128 (1 << 7), not
0, and the initial sequence is observable: with the clock still in slot
0, a first call from sequence 128 returns a different id than a first
call from sequence 0 would. -/
theorem c7_counterexample :
    initialInner.sequence = 128 ∧
    (sonyNextId 1 0 ⟨0, 128⟩).1 = Except.ok 8454145 ∧
    (sonyNextId 1 0 ⟨0, 0⟩).1 = Except.ok 65537 ∧
    (8454145 : Nat) ≠ 65537 :=
  ⟨rfl, rfl, rfl, by decide⟩

/-- C7 (amended): a successful construction builds the state
{last_time_unit = 0, sequence = 128}; the initial sequence value has no
observable effect provided the first call reads a clock slot above 0,
since that call resets the sequence; with the first call still in slot 0
it is observable. -/
theorem c7_initial_state (m : Nat) (c : Int) (s1 s2 : Nat) (hc : 0 < c) :
    initialInner = ⟨0, 128⟩ ∧ sonyNextId m c ⟨0, s1⟩ = sonyNextId m c ⟨0, s2⟩ := by
  refine ⟨rfl, ?_⟩
  have h1 : advance c ⟨0, s1⟩ = ⟨c, 0⟩ := by
    rw [advance_eq_mod, if_pos (by dsimp only; omega)]
  have h2 : advance c ⟨0, s2⟩ = ⟨c, 0⟩ := by
    rw [advance_eq_mod, if_pos (by dsimp only; omega)]
  rw [sonyNextId_eq, sonyNextId_eq, h1, h2]

/-- C7 amended witness: at clock slot 1 the first call is the same from
initial sequence 128 as from 0. -/
theorem c7_witness :
    ((0 : Int) < 1) ∧ sonyNextId 9 1 ⟨0, 128⟩ = sonyNextId 9 1 ⟨0, 0⟩ :=
  ⟨by decide, (c7_initial_state 9 1 128 0 (by decide)).2⟩

/-- C8: under current ≤ last_time_unit, a call from sequence 255 leaves
sequence 0 and last_time_unit advanced by one; from any other in domain
sequence value it increments the sequence and keeps last_time_unit. -/
theorem c8_sequence_rollover (m : Nat) (c : Int) (s : Inner)
    (hc : c ≤ s.elapsed_time) (hs : s.sequence ≤ 255) :
    (sonyNextId m c s).2 =
      if s.sequence = 255 then ⟨s.elapsed_time + 1, 0⟩
      else ⟨s.elapsed_time, s.sequence + 1⟩ := by
  rw [sonyNextId_snd, advance_eq_mod, if_neg (by omega)]
  by_cases h255 : s.sequence = 255
  · rw [if_pos (by omega), if_pos h255, Inner.mk.injEq]
    exact ⟨rfl, by omega⟩
  · rw [if_neg (by omega), if_neg h255, Inner.mk.injEq]
    exact ⟨rfl, by omega⟩

/-- C8 witness: at slot 7, sequence 255 wraps into slot 8, and sequence
13 just increments. -/
theorem c8_witness :
    ((0 : Int) ≤ 7) ∧ ((255 : Nat) ≤ 255) ∧ ((13 : Nat) ≤ 255) ∧
    (sonyNextId 1 0 ⟨7, 255⟩).2 = ⟨8, 0⟩ ∧
    (sonyNextId 1 0 ⟨7, 13⟩).2 = ⟨7, 14⟩ := by
  have ha := c8_sequence_rollover 1 0 ⟨7, 255⟩ (by decide) (by decide)
  have hb := c8_sequence_rollover 1 0 ⟨7, 13⟩ (by decide) (by decide)
  refine ⟨by decide, by decide, by decide, ?_, ?_⟩
  · rw [ha]; rfl
  · rw [hb]; rfl

/-- C9: the two draft decompose functions disagree on the codec: at the
id encoding time 1, sequence 255, machine 65535, the sonyflake decompose
recovers the fields while the draft in src/src/lib.rs, with its shifted
masks, reports sequence 128 and machine_id 32768.  The encoder of the
draft agrees with the sonyflake one, so decompose_draft fails the decode
law of the spec: the draft code, not the claim, is wrong. -/
theorem c9_draft_decompose_diverges :
    to_id (1 : Int) 255 65535 = 33554431 ∧
    (decompose 33554431).sequence = 255 ∧
    (decompose 33554431).machine_id = 65535 ∧
    (decompose_draft 33554431).sequence = 128 ∧
    (decompose_draft 33554431).machine_id = 32768 ∧
    decompose_draft 33554431 ≠ decompose 33554431 := by
  refine ⟨rfl, rfl, rfl, rfl, rfl, by decide⟩

/-- C10: in the self healing policy the rebase writes only the start_time
of the handle the call was made on (and resets the shared state): a
cloned handle sharing the same locked state keeps its previous
start_time, while both observe the reset {0, 0} state. -/
theorem c10_rebase_frame (w : World) (nowCur nowRebase : Int)
    (hclone : w.h2 = cloneHandle w.h1)
    (hover : TIME_LIMIT ≤ (advance (nowCur - w.h1.start_time) w.inner).elapsed_time) :
    (infNextIdFst nowCur nowRebase w).2.h1 = ⟨nowRebase, w.h1.machine_id⟩ ∧
    (infNextIdFst nowCur nowRebase w).2.h2 = w.h2 ∧
    (infNextIdFst nowCur nowRebase w).2.h2.start_time = w.h1.start_time ∧
    (infNextIdFst nowCur nowRebase w).2.inner = ⟨0, 0⟩ := by
  rw [infNextIdFst_eq, if_pos hover]
  dsimp only
  refine ⟨rfl, rfl, ?_, rfl⟩
  rw [hclone]
  rfl

/-- C10 witness: after handle one rebases at clock 7, the cloned handle
two still has start_time 0 while the shared state is reset. -/
theorem c10_witness :
    ((⟨0, 1⟩ : Handle) = cloneHandle ⟨0, 1⟩) ∧
    TIME_LIMIT ≤ (advance ((0 : Int) - 0) (⟨TIME_LIMIT - 1, 255⟩ : Inner)).elapsed_time ∧
    (infNextIdFst 0 7 ⟨⟨0, 1⟩, ⟨0, 1⟩, ⟨TIME_LIMIT - 1, 255⟩⟩).2.h2.start_time = 0 ∧
    (infNextIdFst 0 7 ⟨⟨0, 1⟩, ⟨0, 1⟩, ⟨TIME_LIMIT - 1, 255⟩⟩).2.inner = ⟨0, 0⟩ := by
  have h := c10_rebase_frame ⟨⟨0, 1⟩, ⟨0, 1⟩, ⟨TIME_LIMIT - 1, 255⟩⟩ 0 7
    (by decide) (by decide)
  exact ⟨by decide, by decide, h.2.2.1, h.2.2.2⟩

end Flake
